import Mathlib

/-!
Formal model of the product-listing backend (cursor pagination, cache keys,
OAuth2 token refresh, circuit breaker and retry logic).

JavaScript strings are modelled as `List Char`; JavaScript numbers that are
used as integers (timestamps in ms, limits, TTLs) are modelled as `Int`/`Nat`.
Fallible operations return `Option`/`Except`.
-/

/-! ## JavaScript-style string and number utilities -/

/-- Model of JavaScript `String.prototype.split(sep)` restricted to a
single-character separator: `"a:b".split(':') = ["a","b"]`, `"".split(':') = [""]`. -/
def splitOnChar (sep : Char) : List Char → List (List Char)
  | [] => [[]]
  | c :: rest =>
    let r := splitOnChar sep rest
    if c = sep then [] :: r
    else
      match r with
      | [] => [[c]]
      | h :: t => (c :: h) :: t

/-- Decimal digit character for a digit value (used when printing numbers). -/
def digitChar : Nat → Char
  | 0 => '0'
  | 1 => '1'
  | 2 => '2'
  | 3 => '3'
  | 4 => '4'
  | 5 => '5'
  | 6 => '6'
  | 7 => '7'
  | 8 => '8'
  | 9 => '9'
  | _ => '0'

/-- Is the character an ASCII decimal digit? -/
def isDigitChar (c : Char) : Bool := decide (48 ≤ c.toNat) && decide (c.toNat ≤ 57)

/-- Numeric value of an ASCII digit character. -/
def digitVal (c : Char) : Nat := c.toNat - 48

/-- Digit-accumulating loop for decimal printing; `fuel` bounds the number of
divisions (any `fuel ≥ n` computes all digits of `n`). -/
def natToCharsGo : Nat → Nat → List Char → List Char
  | 0, _, acc => acc
  | fuel + 1, n, acc =>
    if n = 0 then acc else natToCharsGo fuel (n / 10) (digitChar (n % 10) :: acc)

/-- Model of JavaScript number-to-string conversion for a nonnegative integer. -/
def natToChars (n : Nat) : List Char :=
  if n = 0 then ['0'] else natToCharsGo (n + 1) n []

/-- Model of JavaScript number-to-string conversion for an integer value
(template-literal interpolation of an integral number). -/
def intToChars (i : Int) : List Char :=
  if i < 0 then '-' :: natToChars i.natAbs else natToChars i.toNat

/-- Value of a list of ASCII digit characters, most significant first. -/
def digitsToNat (ds : List Char) : Nat :=
  ds.foldl (fun a c => a * 10 + digitVal c) 0

/-- Shared tail of the `parseInt` model: consume leading digits after an
optional sign; `none` models `NaN` (no digits consumed). -/
def parseIntFrom (neg : Bool) (rest : List Char) : Option Int :=
  let ds := rest.takeWhile isDigitChar
  if ds = [] then none
  else some (if neg then -(digitsToNat ds : Int) else (digitsToNat ds : Int))

/-- Model of JavaScript `parseInt(s, 10)`: skip leading whitespace, read an
optional sign, then greedily read decimal digits, ignoring any trailing
characters; `none` models `NaN`. -/
def parseIntJS (s : List Char) : Option Int :=
  match s.dropWhile (fun c => c = ' ') with
  | [] => none
  | c :: rest =>
    if c = '-' then parseIntFrom true rest
    else if c = '+' then parseIntFrom false rest
    else parseIntFrom false (c :: rest)

/-- Model of validator.js `isInt` (used by express-validator): the whole
string must be an optionally signed decimal integer. Returns its value. -/
def strictIntVal (s : List Char) : Option Int :=
  match s with
  | [] => none
  | c :: rest =>
    if c = '-' then
      if rest ≠ [] ∧ rest.all isDigitChar then some (-(digitsToNat rest : Int)) else none
    else if c = '+' then
      if rest ≠ [] ∧ rest.all isDigitChar then some (digitsToNat rest : Int) else none
    else if (c :: rest).all isDigitChar then some (digitsToNat (c :: rest) : Int)
    else none

/-- JavaScript `a || b` for an optional string value (empty string is falsy). -/
def jsStrOr (v : Option (List Char)) (d : List Char) : List Char :=
  match v with
  | some s => if s = [] then d else s
  | none => d

/-- JavaScript `a || b` for an optional integer value (0 is falsy). -/
def jsIntOr (v : Option Int) (d : Int) : Int :=
  match v with
  | some x => if x = 0 then d else x
  | none => d

/-- JavaScript truthiness of an optional string (present and non-empty). -/
def jsTruthyStr (v : Option (List Char)) : Bool :=
  match v with
  | some s => decide (s ≠ [])
  | none => false

/-! ## UTF-8 (model of Node `Buffer.from(string)` / `buf.toString('utf-8')`) -/

/-- Is the byte a UTF-8 continuation byte (`10xxxxxx`)? -/
def isContByte (b : Nat) : Bool := decide (128 ≤ b) && decide (b < 192)

/-- UTF-8 encoding of a single code point. -/
def utf8EncodeChar (c : Char) : List Nat :=
  let n := c.toNat
  if n < 128 then [n]
  else if n < 2048 then [192 + n / 64, 128 + n % 64]
  else if n < 65536 then [224 + n / 4096, 128 + n / 64 % 64, 128 + n % 64]
  else [240 + n / 262144, 128 + n / 4096 % 64, 128 + n / 64 % 64, 128 + n % 64]

/-- UTF-8 encoding of a string (model of `Buffer.from(s, 'utf-8')`). -/
def utf8Encode (s : List Char) : List Nat := s.flatMap utf8EncodeChar

/-- UTF-8 decoding of a byte sequence (model of `buf.toString('utf-8')` on
well-formed input; `none` where Node would emit replacement characters). -/
def utf8Decode : List Nat → Option (List Char)
  | [] => some []
  | b :: rest =>
    if b < 128 then
      (utf8Decode rest).map (fun cs => Char.ofNat b :: cs)
    else if b < 192 then none
    else if b < 224 then
      match rest with
      | b2 :: rest2 =>
        if isContByte b2 then
          (utf8Decode rest2).map (fun cs => Char.ofNat ((b - 192) * 64 + (b2 - 128)) :: cs)
        else none
      | [] => none
    else if b < 240 then
      match rest with
      | b2 :: b3 :: rest3 =>
        if isContByte b2 && isContByte b3 then
          (utf8Decode rest3).map
            (fun cs => Char.ofNat ((b - 224) * 4096 + (b2 - 128) * 64 + (b3 - 128)) :: cs)
        else none
      | _ => none
    else
      match rest with
      | b2 :: b3 :: b4 :: rest4 =>
        if isContByte b2 && isContByte b3 && isContByte b4 then
          (utf8Decode rest4).map
            (fun cs =>
              Char.ofNat ((b - 240) * 262144 + (b2 - 128) * 4096 + (b3 - 128) * 64 + (b4 - 128)) :: cs)
        else none
      | _ => none

/-! ## Base64 (model of Node `buf.toString('base64')` / `Buffer.from(s, 'base64')`) -/

/-- The standard base64 alphabet. -/
def b64Chars : List Char :=
  "ABCDEFGHIJKLMNOPQRSTUVWXYZabcdefghijklmnopqrstuvwxyz0123456789+/".toList

/-- Character for a sextet value (values are always < 64 at call sites). -/
def sextetChar (n : Nat) : Char := b64Chars.getD n 'A'

/-- Sextet value of a base64 alphabet character. -/
def sextetVal (c : Char) : Option Nat := b64Chars.findIdx? (fun d => d = c)

/-- Base64 encoding of a byte sequence, with `=` padding
(model of `Buffer.prototype.toString('base64')`). -/
def b64EncodeBytes : List Nat → List Char
  | [] => []
  | [b1] => [sextetChar (b1 / 4), sextetChar (b1 % 4 * 16), '=', '=']
  | [b1, b2] =>
    [sextetChar (b1 / 4), sextetChar (b1 % 4 * 16 + b2 / 16), sextetChar (b2 % 16 * 4), '=']
  | b1 :: b2 :: b3 :: rest =>
    sextetChar (b1 / 4) :: sextetChar (b1 % 4 * 16 + b2 / 16) ::
      sextetChar (b2 % 16 * 4 + b3 / 64) :: sextetChar (b3 % 64) :: b64EncodeBytes rest

/-- Base64 decoding (model of `Buffer.from(s, 'base64')` on well-formed
base64 text; Node itself is lenient on malformed input, but every cursor this
development decodes is well-formed base64, where the two agree). -/
def b64DecodeBytes : List Char → Option (List Nat)
  | [] => some []
  | c1 :: c2 :: c3 :: c4 :: rest =>
    match sextetVal c1, sextetVal c2 with
    | some v1, some v2 =>
      if c3 = '=' then
        if c4 = '=' ∧ rest = [] then some [v1 * 4 + v2 / 16] else none
      else
        match sextetVal c3 with
        | some v3 =>
          if c4 = '=' then
            if rest = [] then some [v1 * 4 + v2 / 16, v2 % 16 * 16 + v3 / 4] else none
          else
            match sextetVal c4, b64DecodeBytes rest with
            | some v4, some tail =>
              some ((v1 * 4 + v2 / 16) :: (v2 % 16 * 16 + v3 / 4) :: (v3 % 4 * 64 + v4) :: tail)
            | _, _ => none
        | none => none
    | _, _ => none
  | _ => none

/-! ## Cursor codec

Source: `ProductService.encodeCursor` builds
`Buffer.from(`${product.id}:${product.createdAt.getTime()}`).toString('base64')`
(the `sortBy` argument is ignored via `void sortBy`), and
`ProductRepository.decodeCursor` base64-decodes, splits on `':'`, requires two
non-empty components and a parseable timestamp, and on any failure returns the
fallback `{ id: '', timestamp: Date.now() }`. -/

/-- Result of `ProductRepository.decodeCursor`. -/
structure DecodedCursor where
  timestamp : Int
  id : List Char
deriving DecidableEq

/-- The `decodeCursor` catch-block fallback `{ id: '', timestamp: Date.now() }`;
`now` stands for `Date.now()`. -/
def decodeCursorFallback (now : Int) : DecodedCursor := ⟨now, []⟩

/-- Model of `ProductService.encodeCursor` on the raw pair it serializes:
base64 of `id + ':' + createdAt.getTime()`. -/
def encodeCursorRaw (id : List Char) (createdAtMs : Int) : List Char :=
  b64EncodeBytes (utf8Encode (id ++ ':' :: intToChars createdAtMs))

/-- Model of `ProductRepository.decodeCursor` (the documented variant with the
try/catch fallback). `now` models `Date.now()` in the catch block. -/
def decodeCursor (now : Int) (cursor : List Char) : DecodedCursor :=
  match b64DecodeBytes cursor with
  | none => decodeCursorFallback now
  | some bytes =>
    match utf8Decode bytes with
    | none => decodeCursorFallback now
    | some decoded =>
      let parts := splitOnChar ':' decoded
      let idPart := parts.getD 0 []
      let timestampStr := parts.getD 1 []
      if idPart = [] ∨ parts.length < 2 ∨ timestampStr = [] then decodeCursorFallback now
      else
        match parseIntJS timestampStr with
        | none => decodeCursorFallback now
        | some ts => ⟨ts, idPart⟩

/-! ## Product data model and listing engine

Source: `ProductRepository.findMany` (filter + sort + `LIMIT limit+1`) and
`ProductService.listProducts` (hasMore detection, page trimming, next cursor). -/

/-- A row of the `products` table. `createdAt`/`updatedAt` are ms-since-epoch
timestamps; `price` is modelled at integer precision. -/
structure Product where
  id : List Char
  name : List Char
  description : List Char
  price : Int
  category : Option (List Char)
  stock : Nat
  createdAt : Int
  updatedAt : Int
deriving DecidableEq

/-- The `ProductListQuery` interface; absent fields are `none`. -/
structure ProductListQuery where
  cursor : Option (List Char) := none
  limit : Option Int := none
  sortBy : Option (List Char) := none
  sortOrder : Option (List Char) := none
  category : Option (List Char) := none
  search : Option (List Char) := none
  minPrice : Option Int := none
  maxPrice : Option Int := none
deriving DecidableEq

/-- The whitelist `ALLOWED_SORT_FIELDS`. -/
def allowedSortFields : List (List Char) :=
  ["name".toList, "price".toList, "createdAt".toList, "updatedAt".toList]

/-- Model of `ProductRepository.validateSortField`: unrecognized fields fall
back to `'createdAt'`. -/
def validateSortField (sortBy : List Char) : List Char :=
  if sortBy ∈ allowedSortFields then sortBy else "createdAt".toList

/-- ASCII lower-casing (model of `String.prototype.toLowerCase` on the ASCII
values appearing here). -/
def lowerList (s : List Char) : List Char := s.map Char.toLower

/-- Model of `ProductRepository.validateSortOrder`: `true` iff the requested
order normalizes to ascending (`sortOrder?.toLowerCase() === 'asc'`). -/
def validateSortOrder (sortOrder : List Char) : Bool :=
  lowerList sortOrder = "asc".toList

/-- Lexicographic strict order on strings, byte-wise on code points (model of
the SQL comparison used for the `id` tiebreak; ids here are ASCII). -/
def charListLt : List Char → List Char → Bool
  | [], [] => false
  | [], _ :: _ => true
  | _ :: _, [] => false
  | a :: as, b :: bs =>
    if a.toNat < b.toNat then true
    else if b.toNat < a.toNat then false
    else charListLt as bs

/-- A sort-column value: numeric (price, createdAt, updatedAt) or textual
(name, compared case-insensitively as under the MySQL default collation). -/
inductive SortKey where
  | num (v : Int)
  | str (s : List Char)
deriving DecidableEq

/-- Value of the validated sort column for a row. -/
def sortKeyOf (col : List Char) (p : Product) : SortKey :=
  if col = "name".toList then .str (lowerList p.name)
  else if col = "price".toList then .num p.price
  else if col = "updatedAt".toList then .num p.updatedAt
  else .num p.createdAt

/-- Strict order on sort-column values. -/
def sortKeyLt : SortKey → SortKey → Bool
  | .num a, .num b => decide (a < b)
  | .str a, .str b => charListLt a b
  | _, _ => false

/-- Row order for `ORDER BY sortColumn dir, id dir`: `rowLe col asc p q` holds
iff `p` comes no later than `q` in the emitted order. -/
def rowLe (col : List Char) (asc : Bool) (p q : Product) : Bool :=
  let kp := sortKeyOf col p
  let kq := sortKeyOf col q
  if kp = kq then
    if p.id = q.id then true
    else if asc then charListLt p.id q.id else charListLt q.id p.id
  else if asc then sortKeyLt kp kq else sortKeyLt kq kp

/-- Insert into a list sorted by `le`. -/
def insertSorted (le : Product → Product → Bool) (x : Product) : List Product → List Product
  | [] => [x]
  | y :: ys => if le x y then x :: y :: ys else y :: insertSorted le x ys

/-- Deterministic model of the SQL `ORDER BY` (insertion sort; the order is
total because ties on the sort column are broken by the unique `id`). -/
def sortRows (le : Product → Product → Bool) : List Product → List Product
  | [] => []
  | x :: xs => insertSorted le x (sortRows le xs)

/-- Does the first list start with the second? -/
def startsWithList : List Char → List Char → Bool
  | _, [] => true
  | [], _ :: _ => false
  | a :: as, b :: bs => a = b && startsWithList as bs

/-- Does the first list contain the second as a contiguous run? -/
def containsList : List Char → List Char → Bool
  | [], pat => decide (pat = [])
  | a :: as, pat => startsWithList (a :: as) pat || containsList as pat

/-- Case-insensitive containment test for `name LIKE '%search%'` under the
case-insensitive default collation. -/
def likeContains (name search : List Char) : Bool :=
  containsList (lowerList name) (lowerList search)

/-- Model of `ProductRepository.buildWhereClause` as a row predicate: the
cursor condition `(created_at < ? OR (created_at = ? AND id < ?))` — note that
it is anchored on `created_at` and `<` regardless of the requested sort field
and direction — conjoined with the category, search and price filters. -/
def rowMatches (decoded : Option DecodedCursor) (q : ProductListQuery) (p : Product) : Bool :=
  (match decoded with
   | some dc =>
     decide (p.createdAt < dc.timestamp) ||
       (decide (p.createdAt = dc.timestamp) && charListLt p.id dc.id)
   | none => true) &&
  (if jsTruthyStr q.category then decide (p.category = some (jsStrOr q.category [])) else true) &&
  (if jsTruthyStr q.search then likeContains p.name (jsStrOr q.search []) else true) &&
  (match q.minPrice with
   | some v => decide (v ≤ p.price)
   | none => true) &&
  (match q.maxPrice with
   | some v => decide (p.price ≤ v)
   | none => true)

/-- Model of `ProductRepository.findMany` over an in-memory snapshot of the
table: decode the cursor when supplied (and truthy), filter by the WHERE
clause, order by `(sortColumn, id)` in the requested direction, and return the
first `limit + 1` rows. `now` models `Date.now()` inside the decode fallback. -/
def findMany (table : List Product) (q : ProductListQuery) (now : Int) : List Product :=
  let limit := q.limit.getD 50
  let sortBy := q.sortBy.getD ("createdAt".toList)
  let sortOrder := q.sortOrder.getD ("desc".toList)
  let validSortBy := validateSortField sortBy
  let asc := validateSortOrder sortOrder
  let decoded : Option DecodedCursor :=
    match q.cursor with
    | some cur => if cur = [] then none else some (decodeCursor now cur)
    | none => none
  let rows := sortRows (rowLe validSortBy asc) (table.filter (rowMatches decoded q))
  rows.take (limit + 1).toNat

/-- Shape of the `ProductListResponse` produced by `listProducts`. -/
structure ProductListResponse where
  success : Bool
  data : List Product
  nextCursor : Option (List Char)
  hasMore : Bool
  limit : Int
deriving DecidableEq

/-- Model of `ProductService.listProducts` on a cache miss (a fixed snapshot
with a cold cache; the cache layer stores and replays this same value): fetch
`limit + 1` rows, detect `hasMore`, drop the probe row, and derive the next
cursor from the last row actually returned. -/
def listProductsUncached (table : List Product) (q : ProductListQuery) (now : Int) :
    ProductListResponse :=
  let fetched := findMany table q now
  let limit := jsIntOr q.limit 50
  let hasMore := decide ((fetched.length : Int) > limit)
  let page := if hasMore then fetched.dropLast else fetched
  let nextCursor :=
    if hasMore && decide (page.length > 0) then
      match page.getLast? with
      | some lastProduct => some (encodeCursorRaw lastProduct.id lastProduct.createdAt)
      | none => none
    else none
  ⟨true, page, nextCursor, hasMore, limit⟩

/-- Drive `listProducts` page by page, feeding each returned `nextCursor` back
in, until `hasMore` is false (or the fuel runs out); returns the concatenation
of all returned pages. -/
def paginate (table : List Product) (q : ProductListQuery) (now : Int) : Nat → List Product
  | 0 => []
  | fuel + 1 =>
    let r := listProductsUncached table q now
    if r.hasMore then
      match r.nextCursor with
      | some cur => r.data ++ paginate table { q with cursor := some cur } now fuel
      | none => r.data
    else r.data

/-! ## Cache-key derivation

Source: `ProductService.generateCacheKey` joins the parts with `':'` after
filtering out falsy entries. -/

/-- Model of `ProductService.generateCacheKey`. -/
def generateCacheKey (q : ProductListQuery) : List Char :=
  let parts : List (List Char) :=
    [ "products".toList,
      "cursor:".toList ++ jsStrOr q.cursor ("none".toList),
      "limit:".toList ++ intToChars (jsIntOr q.limit 50),
      "sort:".toList ++ jsStrOr q.sortBy ("createdAt".toList) ++
        ':' :: jsStrOr q.sortOrder ("desc".toList),
      (match q.category with
       | some c => if c = [] then [] else "cat:".toList ++ c
       | none => []),
      (match q.search with
       | some s => if s = [] then [] else "search:".toList ++ s
       | none => []),
      (match q.minPrice with
       | some v => if v = 0 then [] else "minp:".toList ++ intToChars v
       | none => []),
      (match q.maxPrice with
       | some v => if v = 0 then [] else "maxp:".toList ++ intToChars v
       | none => []) ]
  List.intercalate [':'] (parts.filter (fun s => s ≠ []))

/-! ## Route-level limit validation

Source: `product.routes.ts` applies
`query('limit').optional().isInt({ min: 1, max: 100 })` through the `validate`
middleware, which raises `BadRequestError` (HTTP 400) when any check fails;
only then does `ProductController.parseListQuery` run
(`limit ? parseInt(limit, 10) : 50`). -/

/-- Model of the express-validator chain for `limit`:
`optional().isInt({ min: 1, max: 100 })`. -/
def validateLimitParam (limitParam : Option (List Char)) : Bool :=
  match limitParam with
  | none => true
  | some s =>
    match strictIntVal s with
    | some v => decide (1 ≤ v) && decide (v ≤ 100)
    | none => false

/-- Model of the `limit` field of `ProductController.parseListQuery`:
`req.query.limit ? parseInt(req.query.limit, 10) : 50` (`none` models `NaN`,
and an empty string is falsy). -/
def parseListQueryLimit (limitParam : Option (List Char)) : Option Int :=
  match limitParam with
  | none => some 50
  | some s => if s = [] then some 50 else parseIntJS s

/-- The route pipeline for the `limit` parameter: validation middleware first
(rejecting with `BadRequestError`), then controller parsing. The error payload
is the HTTP status code 400. -/
def listLimitPipeline (limitParam : Option (List Char)) : Except Nat (Option Int) :=
  if validateLimitParam limitParam then .ok (parseListQueryLimit limitParam)
  else .error 400

/-! ## Circuit breaker

Source: the `CircuitBreaker` class (unnamed module `part_005`): state machine
over `{ failures, successes, lastFailureTime, state }` with `execute`,
`onSuccess`, `onFailure` and `shouldAttemptReset`. The protected operation is
modelled by its outcome (`opSucceeds`); `now` models `Date.now()`. -/

/-- Circuit breaker states. -/
inductive CircuitState where
  | CLOSED
  | OPEN
  | HALF_OPEN
deriving DecidableEq

/-- The `CircuitBreakerStats` record. -/
structure CircuitBreakerStats where
  failures : Nat
  successes : Nat
  lastFailureTime : Option Int
  state : CircuitState
deriving DecidableEq

/-- A `CircuitBreaker` instance: mutable stats plus configuration. -/
structure CircuitBreaker where
  stats : CircuitBreakerStats
  threshold : Nat
  resetTimeout : Int
deriving DecidableEq

/-- The freshly constructed breaker. -/
def CircuitBreaker.initial (threshold : Nat) (resetTimeout : Int) : CircuitBreaker :=
  ⟨⟨0, 0, none, .CLOSED⟩, threshold, resetTimeout⟩

/-- Model of `shouldAttemptReset`. -/
def shouldAttemptReset (cb : CircuitBreaker) (now : Int) : Bool :=
  match cb.stats.lastFailureTime with
  | none => false
  | some t => decide (now - t ≥ cb.resetTimeout)

/-- Model of `onSuccess`: reset failures, count the success, close the circuit
from HALF_OPEN. -/
def onSuccess (cb : CircuitBreaker) : CircuitBreaker :=
  { cb with
    stats :=
      { cb.stats with
        failures := 0
        successes := cb.stats.successes + 1
        state := if cb.stats.state = .HALF_OPEN then .CLOSED else cb.stats.state } }

/-- Model of `onFailure`: count the failure, record its time, open the circuit
at the threshold. -/
def onFailure (cb : CircuitBreaker) (now : Int) : CircuitBreaker :=
  { cb with
    stats :=
      { cb.stats with
        failures := cb.stats.failures + 1
        lastFailureTime := some now
        state :=
          if cb.stats.failures + 1 ≥ cb.threshold then .OPEN else cb.stats.state } }

/-- Outcome of one `execute` call: `attempted = false` means the call failed
fast with `ServiceUnavailableError` (circuit open) without running the
operation; otherwise `succeeded` is the operation's outcome. -/
structure ExecOutcome where
  attempted : Bool
  succeeded : Bool
  cb : CircuitBreaker
deriving DecidableEq

/-- The body of `execute` after the OPEN gate: run the operation and apply
`onSuccess` / `onFailure`. -/
def cbRun (cb : CircuitBreaker) (now : Int) (opSucceeds : Bool) : ExecOutcome :=
  if opSucceeds then ⟨true, true, onSuccess cb⟩ else ⟨true, false, onFailure cb now⟩

/-- Model of `CircuitBreaker.execute`: in OPEN state either transition to
HALF_OPEN (when the reset timeout elapsed) and attempt the call, or throw
`ServiceUnavailableError` without attempting it. -/
def cbExecute (cb : CircuitBreaker) (now : Int) (opSucceeds : Bool) : ExecOutcome :=
  if cb.stats.state = .OPEN then
    if shouldAttemptReset cb now then
      cbRun { cb with stats := { cb.stats with state := .HALF_OPEN } } now opSucceeds
    else ⟨false, false, cb⟩
  else cbRun cb now opSucceeds

/-- Run a sequence of `execute` calls that all fail, at the given times. -/
def applyFailures (cb : CircuitBreaker) : List Int → CircuitBreaker
  | [] => cb
  | t :: ts => applyFailures (cbExecute cb t false).cb ts

/-! ## Retrying caller

Source: `ExternalApiClient.executeWithRetry` (unnamed module `part_005`): a
`for` loop over `attempt < retryAttempts`; a 4xx-class axios error (truthy
status `< 500`) or a `ServiceUnavailableError` (circuit open) is rethrown
immediately; any other failure sleeps `retryDelay * 2 ** attempt` and retries;
after the loop the last error is thrown. The `attempt`-th call's outcome is
supplied by `outcomes attempt`. -/

/-- Error classification for the retry loop. -/
inductive ApiError where
  /-- An axios HTTP error with an optional response status. -/
  | axiosErr (status : Option Nat)
  /-- `ServiceUnavailableError` thrown by the circuit breaker. -/
  | circuitOpenErr
  /-- Any other failure (network error, 5xx wrapped by axios is modelled by
  `axiosErr` with status ≥ 500). -/
  | otherErr (code : Nat)
deriving DecidableEq

/-- The loop's rethrow-immediately test: a truthy axios status below 500, or a
circuit-open error. -/
def nonRetriable : ApiError → Bool
  | .axiosErr (some s) => decide (s ≠ 0) && decide (s < 500)
  | .axiosErr none => false
  | .circuitOpenErr => true
  | .otherErr _ => false

instance {ε α : Type} [DecidableEq ε] [DecidableEq α] : DecidableEq (Except ε α) := fun x y =>
  match x, y with
  | .ok a, .ok b =>
    if h : a = b then isTrue (congrArg Except.ok h)
    else isFalse (fun hh => h (Except.ok.inj hh))
  | .error a, .error b =>
    if h : a = b then isTrue (congrArg Except.error h)
    else isFalse (fun hh => h (Except.error.inj hh))
  | .ok _, .error _ => isFalse (fun hh => Except.noConfusion hh)
  | .error _, .ok _ => isFalse (fun hh => Except.noConfusion hh)

/-- Observable trace of one `executeWithRetry` run: the returned value or
thrown error (`error none` models throwing the initial `null` `lastError`),
the sleeps performed (in ms), and how many times the operation was invoked. -/
structure RetryTrace (α : Type) where
  result : Except (Option ApiError) α
  sleeps : List Nat
  attemptsMade : Nat
deriving DecidableEq

/-- The retry loop from iteration `attempt` with `fuel` iterations left. -/
def executeWithRetryAux (retryDelay : Nat) (outcomes : Nat → Except ApiError α) :
    Nat → Nat → Option ApiError → RetryTrace α
  | _, 0, lastError => ⟨.error lastError, [], 0⟩
  | attempt, fuel + 1, _ =>
    match outcomes attempt with
    | .ok v => ⟨.ok v, [], 1⟩
    | .error e =>
      if nonRetriable e then ⟨.error (some e), [], 1⟩
      else
        let t := executeWithRetryAux retryDelay outcomes (attempt + 1) fuel (some e)
        ⟨t.result, retryDelay * 2 ^ attempt :: t.sleeps, t.attemptsMade + 1⟩

/-- Model of `ExternalApiClient.executeWithRetry`. -/
def executeWithRetry (retryAttempts retryDelay : Nat) (outcomes : Nat → Except ApiError α) :
    RetryTrace α :=
  executeWithRetryAux retryDelay outcomes 0 retryAttempts none

/-! ## Token manager

Source: `OAuth2Client.saveTokenToCache` computes
`safeTTL = Math.max(token.expiresIn - 60, 0)` and stores with
`safeTTL || token.expiresIn`; `OAuth2Client.refreshTokenWithLock` acquires the
distributed lock, re-checks the cache, fetches and caches a new token inside
`try { ... } finally { await releaseLock(lockKey) }`, and when the lock is
held elsewhere sleeps, re-checks the cache and recurses. -/

/-- Model of the `safeTTL` computation in `saveTokenToCache`. -/
def tokenSafeTTL (expiresIn : Int) : Int := max (expiresIn - 60) 0

/-- The TTL actually passed to `cacheSet`: `safeTTL || token.expiresIn`. -/
def tokenCacheTTL (expiresIn : Int) : Int :=
  if tokenSafeTTL expiresIn = 0 then expiresIn else tokenSafeTTL expiresIn

/-- The external interactions observed by one recursion level of
`refreshTokenWithLock`: the lock-acquisition outcome, the token found by each
cache re-check (already filtered by `isTokenExpired`, so `some tok` means a
valid token), and the outcomes of the network fetch and the cache write. -/
structure RefreshStep where
  lockAcquired : Bool
  waitCacheToken : Option (List Char)
  dblCheckToken : Option (List Char)
  fetchOutcome : Except Nat (List Char)
  saveOutcome : Except Nat Unit
deriving DecidableEq

/-- Observable outcome of `refreshTokenWithLock`: its result (`error none`
models the fuel cutoff of the unbounded recursion) and how many times the
distributed lock was acquired and released. -/
structure RefreshRun where
  result : Except (Option Nat) (List Char)
  locksAcquired : Nat
  locksReleased : Nat
deriving DecidableEq

/-- Model of `OAuth2Client.refreshTokenWithLock`. Step `i` of the recursion
interacts with the world through `steps i`. When the lock is acquired, the
`try` body (double-check, fetch, cache write) runs and the `finally` block
releases the lock on every path, error or not. When the lock is not acquired,
the caller sleeps, re-checks the cache, and recurses. -/
def refreshTokenWithLock (steps : Nat → RefreshStep) : Nat → Nat → RefreshRun
  | 0, _ => ⟨.error none, 0, 0⟩
  | fuel + 1, i =>
    let s := steps i
    if s.lockAcquired then
      let bodyResult : Except Nat (List Char) :=
        match s.dblCheckToken with
        | some tok => .ok tok
        | none =>
          match s.fetchOutcome with
          | .error e => .error e
          | .ok tok =>
            match s.saveOutcome with
            | .error e => .error e
            | .ok _ => .ok tok
      ⟨bodyResult.mapError some, 1, 1⟩
    else
      match s.waitCacheToken with
      | some tok => ⟨.ok tok, 0, 0⟩
      | none =>
        let r := refreshTokenWithLock steps fuel (i + 1)
        ⟨r.result, r.locksAcquired, r.locksReleased⟩

/-! ## Concrete scenarios -/

/-- A snapshot row: distinct ids `p1`..`p5` and createdAt timestamps 1..5 ms. -/
def mkRow (n : Nat) : Product :=
  ⟨('p' :: natToChars n), ('n' :: natToChars n), [], (n : Int), none, n, (n : Int), (n : Int)⟩

/-- A five-row snapshot of the products table. -/
def tbl5 : List Product := [mkRow 1, mkRow 2, mkRow 3, mkRow 4, mkRow 5]

/-- The ascending-createdAt listing request with page size 2. -/
def qAsc : ProductListQuery :=
  { limit := some 2, sortBy := some ("createdAt".toList), sortOrder := some ("asc".toList) }

/-- A well-formed base64 cursor whose payload has no `':'` separator. -/
def malformedCursor : List Char := b64EncodeBytes (utf8Encode ("invalidcursor".toList))

/-- The listing request that supplies the malformed cursor. -/
def qMalformed : ProductListQuery :=
  { cursor := some malformedCursor, limit := some 2 }

/-! ## Theorems -/

theorem refreshRun_balanced (steps : Nat → RefreshStep) :
    ∀ (fuel i : Nat),
      (refreshTokenWithLock steps fuel i).locksAcquired =
        (refreshTokenWithLock steps fuel i).locksReleased := by
  intro fuel
  induction fuel with
  | zero => intro i; rfl
  | succ n ih =>
    intro i
    unfold refreshTokenWithLock
    by_cases h : (steps i).lockAcquired
    · simp [h]
    · simp only [h, Bool.false_eq_true, if_false]
      cases hw : (steps i).waitCacheToken with
      | some tok => rfl
      | none => simpa using ih (i + 1)

/-- C9: in every execution of the token refresh protocol, every acquisition of
the distributed lock is matched by a release before the call returns — the
`finally` block runs on the cached-token early return, on fetch failure and on
cache-write failure alike. -/
theorem C9_lock_always_released (steps : Nat → RefreshStep) (fuel i : Nat) :
    (refreshTokenWithLock steps fuel i).locksAcquired =
      (refreshTokenWithLock steps fuel i).locksReleased :=
  refreshRun_balanced steps fuel i

/-- C8 counterexample: at `expiresIn = 60` (equal to the safety buffer) the
stored TTL is the fallback `expiresIn = 60`, not the clamped value
`max (60 - 60) 0 = 0` the claim requires. -/
theorem C8_counterexample_at_buffer :
    tokenCacheTTL 60 = 60 ∧ max ((60 : Int) - 60) 0 = 0 ∧
      tokenCacheTTL 60 ≠ max ((60 : Int) - 60) 0 := by decide

/-- C8 (amended): the stored TTL is `expiresIn - buffer` when that is
positive, and falls back to `expiresIn` exactly when the clamped value is 0 —
that is, whenever `expiresIn ≤ 60`, including `expiresIn = 60`. -/
theorem C8_cache_ttl_formula (expiresIn : Int) :
    tokenCacheTTL expiresIn = if 60 < expiresIn then expiresIn - 60 else expiresIn := by
  unfold tokenCacheTTL tokenSafeTTL
  rcases le_or_lt expiresIn 60 with h | h
  · rw [max_eq_right (by omega), if_pos rfl, if_neg (by omega)]
  · rw [max_eq_left (by omega), if_neg (by omega), if_pos h]

/-- C10: the cache key derivation is not injective — a category value that
itself contains `':'` collides with a distinct category-plus-search filter,
so the cached page for one filter is served for the other within the TTL. -/
theorem C10_cache_key_collision :
    generateCacheKey { category := some ("x:search:y".toList) } =
        generateCacheKey { category := some ("x".toList), search := some ("y".toList) } ∧
      ({ category := some ("x:search:y".toList) } : ProductListQuery) ≠
        { category := some ("x".toList), search := some ("y".toList) } := by decide

/-- C4: a malformed (undecodable) cursor that the caller explicitly supplied
does not fail with a client input error: `decodeCursor` silently returns the
fallback `{ id: '', timestamp: Date.now() }` and the listing returns a normal
success page computed from those fallback values. -/
theorem C4_malformed_cursor_silent_fallback :
    decodeCursor 1234 malformedCursor = ⟨1234, []⟩ ∧
      (listProductsUncached tbl5 qMalformed 1234).success = true ∧
      (listProductsUncached tbl5 qMalformed 1234).data.map Product.id =
        ["p5".toList, "p4".toList] := by decide

/-- C1: pagination is not faithful to the requested sort order. For the
five-row snapshot sorted ascending by `createdAt` with page size 2, following
`nextCursor` to exhaustion returns rows `p1, p2, p1` — `p1` twice and
`p3, p4, p5` never — because the cursor predicate is anchored on
`created_at <` regardless of the requested direction. -/
theorem C1_ascending_pagination_loses_rows :
    (paginate tbl5 qAsc 0 10).map Product.id =
        ["p1".toList, "p2".toList, "p1".toList] ∧
      tbl5.length = 5 ∧
      (tbl5.map Product.id).Nodup := by decide


theorem cbExecute_closed_fail (cb : CircuitBreaker) (now : Int)
    (h : cb.stats.state = .CLOSED) :
    cbExecute cb now false = ⟨true, false, onFailure cb now⟩ := by
  unfold cbExecute cbRun
  rw [h]
  simp

theorem onFailure_fields (cb : CircuitBreaker) (t : Int) :
    (onFailure cb t).stats.failures = cb.stats.failures + 1 ∧
      (onFailure cb t).stats.lastFailureTime = some t ∧
      (onFailure cb t).threshold = cb.threshold ∧
      (onFailure cb t).resetTimeout = cb.resetTimeout :=
  ⟨rfl, rfl, rfl, rfl⟩

theorem onFailure_state_opens (cb : CircuitBreaker) (t : Int)
    (h : cb.stats.failures + 1 ≥ cb.threshold) :
    (onFailure cb t).stats.state = .OPEN := by
  unfold onFailure
  simp only []
  rw [if_pos h]

theorem onFailure_state_stays (cb : CircuitBreaker) (t : Int)
    (h : ¬cb.stats.failures + 1 ≥ cb.threshold) :
    (onFailure cb t).stats.state = cb.stats.state := by
  unfold onFailure
  simp only []
  rw [if_neg h]

theorem applyFailures_from_closed (times : List Int) :
    ∀ (cb : CircuitBreaker) (tLast : Int),
      cb.stats.state = .CLOSED →
      cb.stats.failures + times.length = cb.threshold →
      times ≠ [] →
      times.getLast? = some tLast →
      (applyFailures cb times).stats.state = .OPEN ∧
        (applyFailures cb times).stats.failures = cb.threshold ∧
        (applyFailures cb times).stats.lastFailureTime = some tLast ∧
        (applyFailures cb times).threshold = cb.threshold ∧
        (applyFailures cb times).resetTimeout = cb.resetTimeout := by
  induction times with
  | nil => intro cb tLast _ _ hne _; exact absurd rfl hne
  | cons t ts ih =>
    intro cb tLast hclosed hcount _ hlast
    have hstep : applyFailures cb (t :: ts) = applyFailures (onFailure cb t) ts := by
      show applyFailures (cbExecute cb t false).cb ts = _
      rw [cbExecute_closed_fail cb t hclosed]
    cases ts with
    | nil =>
      have hthr : cb.stats.failures + 1 = cb.threshold := by simpa using hcount
      have hlast' : t = tLast := by simpa using hlast
      subst hlast'
      rw [hstep]
      show (onFailure cb t).stats.state = _ ∧ (onFailure cb t).stats.failures = _ ∧
        (onFailure cb t).stats.lastFailureTime = _ ∧ (onFailure cb t).threshold = _ ∧
        (onFailure cb t).resetTimeout = _
      obtain ⟨hf, hl, hth, hr⟩ := onFailure_fields cb t
      exact ⟨onFailure_state_opens cb t (by omega), by omega, hl, hth, hr⟩
    | cons t2 ts' =>
      have hlt : cb.stats.failures + 1 < cb.threshold := by
        simp only [List.length_cons] at hcount
        omega
      obtain ⟨hf, hl, hth, hr⟩ := onFailure_fields cb t
      have hclosed' : (onFailure cb t).stats.state = .CLOSED := by
        rw [onFailure_state_stays cb t (by omega)]
        exact hclosed
      have hcount' : (onFailure cb t).stats.failures + (t2 :: ts').length =
          (onFailure cb t).threshold := by
        rw [hf, hth]
        simp only [List.length_cons] at hcount ⊢
        omega
      have hlast' : (t2 :: ts').getLast? = some tLast := by
        rwa [List.getLast?_cons_cons] at hlast
      have hrec := ih (onFailure cb t) tLast hclosed' hcount' (by simp) hlast'
      rw [hstep]
      exact ⟨hrec.1, by rw [hrec.2.1, hth], hrec.2.2.1, by rw [hrec.2.2.2.1, hth],
        by rw [hrec.2.2.2.2, hr]⟩

theorem cbExecute_open_fast_fail (cb : CircuitBreaker) (now t : Int) (b : Bool)
    (hopen : cb.stats.state = .OPEN)
    (hlf : cb.stats.lastFailureTime = some t)
    (hearly : now - t < cb.resetTimeout) :
    cbExecute cb now b = ⟨false, false, cb⟩ := by
  unfold cbExecute
  rw [hopen, if_pos rfl]
  have hres : shouldAttemptReset cb now = false := by
    unfold shouldAttemptReset
    rw [hlf]
    simp only [decide_eq_false_iff_not]
    omega
  rw [hres]
  simp

theorem cbExecute_open_trial (cb : CircuitBreaker) (now t : Int) (b : Bool)
    (hopen : cb.stats.state = .OPEN)
    (hlf : cb.stats.lastFailureTime = some t)
    (helapsed : cb.resetTimeout ≤ now - t) :
    cbExecute cb now b =
      cbRun { cb with stats := { cb.stats with state := .HALF_OPEN } } now b := by
  unfold cbExecute
  rw [hopen, if_pos rfl]
  have hres : shouldAttemptReset cb now = true := by
    unfold shouldAttemptReset
    rw [hlf]
    simpa using helapsed
  rw [hres]
  simp

/-- C5: after `threshold` consecutive failures (at times `times`, the last at
`tLast`) the breaker is OPEN; a call before `resetTimeout` has elapsed fails
fast with the breaker unchanged and the operation not attempted; once
`resetTimeout` has elapsed the call is attempted (the HALF_OPEN trial), and
that trial's success closes the circuit while its failure reopens it. -/
theorem C5_circuit_breaker_lifecycle (threshold : Nat) (resetTimeout : Int)
    (times : List Int) (tLast now1 now2 : Int) (b : Bool)
    (hthr : 1 ≤ threshold)
    (hlen : times.length = threshold)
    (hlast : times.getLast? = some tLast)
    (hearly : now1 - tLast < resetTimeout)
    (helapsed : resetTimeout ≤ now2 - tLast) :
    (applyFailures (CircuitBreaker.initial threshold resetTimeout) times).stats.state = .OPEN ∧
      cbExecute (applyFailures (CircuitBreaker.initial threshold resetTimeout) times) now1 b =
        ⟨false, false, applyFailures (CircuitBreaker.initial threshold resetTimeout) times⟩ ∧
      (cbExecute (applyFailures (CircuitBreaker.initial threshold resetTimeout) times)
          now2 b).attempted = true ∧
      (cbExecute (applyFailures (CircuitBreaker.initial threshold resetTimeout) times)
          now2 true).cb.stats.state = .CLOSED ∧
      (cbExecute (applyFailures (CircuitBreaker.initial threshold resetTimeout) times)
          now2 false).cb.stats.state = .OPEN := by
  have hne : times ≠ [] := by
    intro h
    rw [h] at hlen
    simp at hlen
    omega
  obtain ⟨hopen, hfail, hlf, hth, hr⟩ :=
    applyFailures_from_closed times (CircuitBreaker.initial threshold resetTimeout) tLast
      rfl (by simp [CircuitBreaker.initial, hlen]) hne hlast
  set cbO := applyFailures (CircuitBreaker.initial threshold resetTimeout) times with hcbO
  have hth' : cbO.threshold = threshold := hth
  have hr' : cbO.resetTimeout = resetTimeout := hr
  refine ⟨hopen, cbExecute_open_fast_fail cbO now1 tLast b hopen hlf (by omega), ?_, ?_, ?_⟩
  · rw [cbExecute_open_trial cbO now2 tLast b hopen hlf (by omega)]
    unfold cbRun
    cases b <;> simp
  · rw [cbExecute_open_trial cbO now2 tLast true hopen hlf (by omega)]
    unfold cbRun
    simp only [if_pos]
    unfold onSuccess
    simp
  · rw [cbExecute_open_trial cbO now2 tLast false hopen hlf (by omega)]
    unfold cbRun
    simp only [Bool.false_eq_true, if_false]
    apply onFailure_state_opens
    simp only []
    rw [hth']
    omega

/-- Witness for C5 at threshold 3, reset timeout 100, failures at times
10, 20, 30, a fast-fail probe at time 50 and the trial at time 200. -/
theorem C5_circuit_breaker_lifecycle_witness :
    (applyFailures (CircuitBreaker.initial 3 100) [10, 20, 30]).stats.state = .OPEN ∧
      cbExecute (applyFailures (CircuitBreaker.initial 3 100) [10, 20, 30]) 50 true =
        ⟨false, false, applyFailures (CircuitBreaker.initial 3 100) [10, 20, 30]⟩ ∧
      (cbExecute (applyFailures (CircuitBreaker.initial 3 100) [10, 20, 30]) 200 true).attempted
          = true ∧
      (cbExecute (applyFailures (CircuitBreaker.initial 3 100) [10, 20, 30])
          200 true).cb.stats.state = .CLOSED ∧
      (cbExecute (applyFailures (CircuitBreaker.initial 3 100) [10, 20, 30])
          200 false).cb.stats.state = .OPEN :=
  C5_circuit_breaker_lifecycle 3 100 [10, 20, 30] 30 50 200 true
    (by decide) (by decide) (by decide) (by decide) (by decide)

theorem retryAux_ok {α : Type} (d : Nat) (oc : Nat → Except ApiError α) :
    ∀ (k attempt fuel : Nat) (lastErr : Option ApiError) (v : α),
      k < fuel →
      (∀ j, j < k → ∃ ej, oc (attempt + j) = .error ej ∧ nonRetriable ej = false) →
      oc (attempt + k) = .ok v →
      executeWithRetryAux d oc attempt fuel lastErr =
        ⟨.ok v, (List.range k).map (fun i => d * 2 ^ (attempt + i)), k + 1⟩ := by
  intro k
  induction k with
  | zero =>
    intro attempt fuel lastErr v hk _ hok
    cases fuel with
    | zero => omega
    | succ f =>
      unfold executeWithRetryAux
      rw [Nat.add_zero] at hok
      rw [hok]
      simp
  | succ k ih =>
    intro attempt fuel lastErr v hk hfail hok
    cases fuel with
    | zero => omega
    | succ f =>
      obtain ⟨e0, he0, hret⟩ := hfail 0 (Nat.succ_pos k)
      rw [Nat.add_zero] at he0
      unfold executeWithRetryAux
      rw [he0]
      simp only [hret, Bool.false_eq_true, if_false]
      have hrec := ih (attempt + 1) f (some e0) v (by omega)
        (fun j hj => by
          have := hfail (j + 1) (by omega)
          rwa [show attempt + (j + 1) = attempt + 1 + j by omega] at this)
        (by rwa [show attempt + 1 + k = attempt + (k + 1) by omega])
      rw [hrec]
      refine congrArg (fun l => RetryTrace.mk (Except.ok v) l (k + 1 + 1)) ?_
      rw [List.range_succ_eq_map, List.map_cons, List.map_map]
      refine congrArg₂ List.cons (by rw [Nat.add_zero]) ?_
      apply List.map_congr_left
      intro i _
      show d * 2 ^ (attempt + 1 + i) = d * 2 ^ (attempt + Nat.succ i)
      rw [show attempt + 1 + i = attempt + Nat.succ i by omega]

theorem retryAux_nonretriable {α : Type} (d : Nat) (oc : Nat → Except ApiError α) :
    ∀ (k attempt fuel : Nat) (lastErr : Option ApiError) (e : ApiError),
      k < fuel →
      (∀ j, j < k → ∃ ej, oc (attempt + j) = .error ej ∧ nonRetriable ej = false) →
      oc (attempt + k) = .error e →
      nonRetriable e = true →
      executeWithRetryAux d oc attempt fuel lastErr =
        ⟨.error (some e), (List.range k).map (fun i => d * 2 ^ (attempt + i)), k + 1⟩ := by
  intro k
  induction k with
  | zero =>
    intro attempt fuel lastErr e hk _ herr hnr
    cases fuel with
    | zero => omega
    | succ f =>
      unfold executeWithRetryAux
      rw [Nat.add_zero] at herr
      rw [herr]
      simp [hnr]
  | succ k ih =>
    intro attempt fuel lastErr e hk hfail herr hnr
    cases fuel with
    | zero => omega
    | succ f =>
      obtain ⟨e0, he0, hret⟩ := hfail 0 (Nat.succ_pos k)
      rw [Nat.add_zero] at he0
      unfold executeWithRetryAux
      rw [he0]
      simp only [hret, Bool.false_eq_true, if_false]
      have hrec := ih (attempt + 1) f (some e0) e (by omega)
        (fun j hj => by
          have := hfail (j + 1) (by omega)
          rwa [show attempt + (j + 1) = attempt + 1 + j by omega] at this)
        (by rwa [show attempt + 1 + k = attempt + (k + 1) by omega]) hnr
      rw [hrec]
      refine congrArg (fun l => RetryTrace.mk (Except.error (some e)) l (k + 1 + 1)) ?_
      rw [List.range_succ_eq_map, List.map_cons, List.map_map]
      refine congrArg₂ List.cons (by rw [Nat.add_zero]) ?_
      apply List.map_congr_left
      intro i _
      show d * 2 ^ (attempt + 1 + i) = d * 2 ^ (attempt + Nat.succ i)
      rw [show attempt + 1 + i = attempt + Nat.succ i by omega]

theorem retryAux_exhausted {α : Type} (d : Nat) (oc : Nat → Except ApiError α) :
    ∀ (fuel attempt : Nat) (lastErr : Option ApiError) (e : Nat → ApiError),
      1 ≤ fuel →
      (∀ j, j < fuel → oc (attempt + j) = .error (e j) ∧ nonRetriable (e j) = false) →
      executeWithRetryAux d oc attempt fuel lastErr =
        ⟨.error (some (e (fuel - 1))), (List.range fuel).map (fun i => d * 2 ^ (attempt + i)),
          fuel⟩ := by
  intro fuel
  induction fuel with
  | zero => intro attempt lastErr e h; omega
  | succ f ih =>
    intro attempt lastErr e _ hfail
    obtain ⟨he0, hret⟩ := hfail 0 (Nat.succ_pos f)
    rw [Nat.add_zero] at he0
    unfold executeWithRetryAux
    rw [he0]
    simp only [hret, Bool.false_eq_true, if_false]
    cases f with
    | zero =>
      show RetryTrace.mk
        (executeWithRetryAux d oc (attempt + 1) 0 (some (e 0))).result _ _ = _
      unfold executeWithRetryAux
      simp [List.range_succ]
    | succ f' =>
      have hrec := ih (attempt + 1) (some (e 0)) (fun j => e (j + 1)) (Nat.succ_pos f')
        (fun j hj => by
          have := hfail (j + 1) (by omega)
          rwa [show attempt + (j + 1) = attempt + 1 + j by omega] at this)
      rw [hrec]
      dsimp only
      conv_rhs => rw [List.range_succ_eq_map, List.map_cons, List.map_map]
      refine congrArg₂ (fun r l => RetryTrace.mk r l (f' + 1 + 1)) ?_ ?_
      · show Except.error (some (e (f' + 1 - 1 + 1))) = Except.error (some (e (f' + 1 + 1 - 1)))
        rw [show f' + 1 - 1 + 1 = f' + 1 + 1 - 1 by omega]
      · refine congrArg₂ List.cons (by rfl) ?_
        apply List.map_congr_left
        intro i _
        show d * 2 ^ (attempt + 1 + i) = d * 2 ^ (attempt + Nat.succ i)
        rw [show attempt + 1 + i = attempt + Nat.succ i by omega]

/-- C6: classification and backoff behavior of the retrying caller. A
client-class (truthy status < 500) or circuit-open error is re-raised
immediately after `k + 1` attempts, with only the backoff sleeps
`baseDelay * 2 ^ i` for the `k` preceding retriable failures; a success after
`k` retriable failures is returned with the same sleeps; and when all
`maxAttempts` attempts fail with retriable errors the last observed error is
raised. -/
theorem C6_retry_classification_and_backoff (maxAttempts d : Nat)
    (oc : Nat → Except ApiError Nat) :
    (∀ k v, k < maxAttempts →
      (∀ j, j < k → ∃ ej, oc j = .error ej ∧ nonRetriable ej = false) →
      oc k = .ok v →
      executeWithRetry maxAttempts d oc =
        ⟨.ok v, (List.range k).map (fun i => d * 2 ^ i), k + 1⟩) ∧
    (∀ k e, k < maxAttempts →
      (∀ j, j < k → ∃ ej, oc j = .error ej ∧ nonRetriable ej = false) →
      oc k = .error e → nonRetriable e = true →
      executeWithRetry maxAttempts d oc =
        ⟨.error (some e), (List.range k).map (fun i => d * 2 ^ i), k + 1⟩) ∧
    (∀ e : Nat → ApiError, 1 ≤ maxAttempts →
      (∀ j, j < maxAttempts → oc j = .error (e j) ∧ nonRetriable (e j) = false) →
      executeWithRetry maxAttempts d oc =
        ⟨.error (some (e (maxAttempts - 1))), (List.range maxAttempts).map (fun i => d * 2 ^ i),
          maxAttempts⟩) := by
  refine ⟨?_, ?_, ?_⟩
  · intro k v hk hfail hok
    have := retryAux_ok d oc k 0 maxAttempts none v hk
      (fun j hj => by simpa using hfail j hj) (by simpa using hok)
    simpa [executeWithRetry] using this
  · intro k e hk hfail herr hnr
    have := retryAux_nonretriable d oc k 0 maxAttempts none e hk
      (fun j hj => by simpa using hfail j hj) (by simpa using herr) hnr
    simpa [executeWithRetry] using this
  · intro e hma hfail
    have := retryAux_exhausted d oc maxAttempts 0 none e hma
      (fun j hj => by simpa using hfail j hj)
    simpa [executeWithRetry] using this

/-- Witness for C6 with three configured attempts, base delay 100 and an
operation that fails retriably once and then succeeds: one sleep of 100 ms,
two attempts, value returned. -/
theorem C6_retry_classification_and_backoff_witness :
    executeWithRetry 3 100 (fun n => if n = 0 then .error (.otherErr 7) else .ok 42) =
      ⟨.ok 42, [100], 2⟩ := by
  have h := (C6_retry_classification_and_backoff 3 100
    (fun n => if n = 0 then .error (.otherErr 7) else .ok 42)).1 1 42 (by decide)
    (fun j hj => by
      interval_cases j
      exact ⟨.otherErr 7, rfl, rfl⟩)
    rfl
  simpa [List.range_succ] using h

theorem isDigitChar_ne (c : Char) (h : isDigitChar c = true) :
    c ≠ ' ' ∧ c ≠ '-' ∧ c ≠ '+' := by
  refine ⟨?_, ?_, ?_⟩ <;> rintro rfl <;> revert h <;> decide

theorem parseIntFrom_all_digits (neg : Bool) (rest : List Char)
    (hne : rest ≠ []) (hall : rest.all isDigitChar = true) :
    parseIntFrom neg rest =
      some (if neg then -(digitsToNat rest : Int) else (digitsToNat rest : Int)) := by
  unfold parseIntFrom
  have htw : rest.takeWhile isDigitChar = rest :=
    List.takeWhile_eq_self_iff.mpr (by simpa [List.all_eq_true] using hall)
  rw [htw, if_neg hne]

theorem strictIntVal_parseIntJS (s : List Char) (v : Int)
    (h : strictIntVal s = some v) : parseIntJS s = some v := by
  cases s with
  | nil => simp [strictIntVal] at h
  | cons c rest =>
    simp only [strictIntVal] at h
    by_cases hc : c = '-'
    · rw [if_pos hc] at h
      by_cases hcond : rest ≠ [] ∧ rest.all isDigitChar
      · rw [if_pos hcond] at h
        have hv : some (-(digitsToNat rest : Int)) = some v := h
        unfold parseIntJS
        subst hc
        rw [List.dropWhile_cons]
        simp only [decide_eq_true_eq, if_neg (by decide : ¬('-' = ' '))]
        rw [if_pos trivial]
        rw [parseIntFrom_all_digits true rest hcond.1 hcond.2]
        simpa using hv
      · rw [if_neg hcond] at h
        exact absurd h (by simp)
    · rw [if_neg hc] at h
      by_cases hc2 : c = '+'
      · rw [if_pos hc2] at h
        by_cases hcond : rest ≠ [] ∧ rest.all isDigitChar
        · rw [if_pos hcond] at h
          have hv : some ((digitsToNat rest : Int)) = some v := h
          unfold parseIntJS
          subst hc2
          rw [List.dropWhile_cons]
          simp only [decide_eq_true_eq, if_neg (by decide : ¬('+' = ' '))]
          rw [if_neg (by decide : ¬('+' = '-')), if_pos trivial]
          rw [parseIntFrom_all_digits false rest hcond.1 hcond.2]
          simpa using hv
        · rw [if_neg hcond] at h
          exact absurd h (by simp)
      · rw [if_neg hc2] at h
        by_cases hall : (c :: rest).all isDigitChar
        · rw [if_pos hall] at h
          have hv : some ((digitsToNat (c :: rest) : Int)) = some v := h
          have hcd : isDigitChar c = true := by
            have := hall
            simp only [List.all_cons, Bool.and_eq_true] at this
            exact this.1
          obtain ⟨hsp, hmn, hpl⟩ := isDigitChar_ne c hcd
          unfold parseIntJS
          rw [List.dropWhile_cons]
          simp only [decide_eq_true_eq, if_neg hsp]
          rw [if_neg hmn, if_neg hpl]
          rw [parseIntFrom_all_digits false (c :: rest) (by simp) hall]
          simpa using hv
        · rw [if_neg hall] at h
          exact absurd h (by simp)

/-- C7: the effective page limit is bounded to 1..100 — every request either
fails validation with `BadRequestError` (HTTP 400) before the controller runs,
or reaches the query with an effective limit between 1 and 100 (a missing
limit defaults to 50). -/
theorem C7_limit_rejected_or_in_range (p : Option (List Char)) :
    listLimitPipeline p = .error 400 ∨
      ∃ l : Int, listLimitPipeline p = .ok (some l) ∧ 1 ≤ l ∧ l ≤ 100 := by
  by_cases hv : validateLimitParam p = true
  · right
    cases p with
    | none =>
      refine ⟨50, ?_, by decide, by decide⟩
      unfold listLimitPipeline
      rw [if_pos hv]
      rfl
    | some s =>
      have hv1 := hv
      simp only [validateLimitParam] at hv1
      cases hs : strictIntVal s with
      | none =>
        rw [hs] at hv1
        exact absurd hv1 (by simp)
      | some v =>
        rw [hs] at hv1
        simp only [Bool.and_eq_true, decide_eq_true_eq] at hv1
        refine ⟨v, ?_, hv1.1, hv1.2⟩
        have hne : s ≠ [] := by
          intro he
          rw [he] at hs
          simp [strictIntVal] at hs
        unfold listLimitPipeline
        rw [if_pos hv]
        simp only [parseListQueryLimit]
        rw [if_neg hne, strictIntVal_parseIntJS s v hs]
  · left
    unfold listLimitPipeline
    rw [if_neg hv]

theorem splitOnChar_ne_nil (sep : Char) (s : List Char) : splitOnChar sep s ≠ [] := by
  cases s with
  | nil => simp [splitOnChar]
  | cons c rest =>
    simp only [splitOnChar]
    by_cases h : c = sep
    · simp [h]
    · simp only [h, if_false]
      cases splitOnChar sep rest <;> simp

theorem splitOnChar_no_sep (sep : Char) (s : List Char) (h : sep ∉ s) :
    splitOnChar sep s = [s] := by
  induction s with
  | nil => rfl
  | cons c rest ih =>
    have hc : ¬c = sep := fun he => h (he ▸ List.mem_cons_self c rest)
    have hrest : sep ∉ rest := fun hm => h (List.mem_cons_of_mem c hm)
    simp only [splitOnChar, hc, if_false, ih hrest]

theorem splitOnChar_append (sep : Char) (xs ys : List Char) (h : sep ∉ xs) :
    splitOnChar sep (xs ++ sep :: ys) = xs :: splitOnChar sep ys := by
  induction xs with
  | nil => simp [splitOnChar]
  | cons c rest ih =>
    have hc : ¬c = sep := fun he => h (he ▸ List.mem_cons_self c rest)
    have hrest : sep ∉ rest := fun hm => h (List.mem_cons_of_mem c hm)
    show splitOnChar sep (c :: (rest ++ sep :: ys)) = _
    simp only [splitOnChar, hc, if_false]
    rw [ih hrest]

theorem digitChar_isDigit (d : Nat) (h : d < 10) : isDigitChar (digitChar d) = true := by
  interval_cases d <;> decide

theorem digitVal_digitChar (d : Nat) (h : d < 10) : digitVal (digitChar d) = d := by
  interval_cases d <;> decide

theorem natToCharsGo_all_digits :
    ∀ (fuel n : Nat) (acc : List Char),
      (∀ c ∈ acc, isDigitChar c = true) →
      ∀ c ∈ natToCharsGo fuel n acc, isDigitChar c = true := by
  intro fuel
  induction fuel with
  | zero => intro n acc hacc; exact hacc
  | succ f ih =>
    intro n acc hacc c hc
    by_cases hn : n = 0
    · rw [natToCharsGo, if_pos hn] at hc
      exact hacc c hc
    · rw [natToCharsGo, if_neg hn] at hc
      refine ih (n / 10) (digitChar (n % 10) :: acc) ?_ c hc
      intro c' hc'
      rcases List.mem_cons.mp hc' with h1 | h2
      · rw [h1]
        exact digitChar_isDigit (n % 10) (Nat.mod_lt n (by omega))
      · exact hacc c' h2

theorem natToCharsGo_ne_nil :
    ∀ (fuel n : Nat) (acc : List Char), acc ≠ [] → natToCharsGo fuel n acc ≠ [] := by
  intro fuel
  induction fuel with
  | zero => intro n acc h; exact h
  | succ f ih =>
    intro n acc h
    by_cases hn : n = 0
    · rw [natToCharsGo, if_pos hn]
      exact h
    · rw [natToCharsGo, if_neg hn]
      exact ih (n / 10) (digitChar (n % 10) :: acc) (by simp)

theorem digitsFold_shift (ds : List Char) :
    ∀ a : Nat,
      ds.foldl (fun x c => x * 10 + digitVal c) a = a * 10 ^ ds.length + digitsToNat ds := by
  induction ds with
  | nil => intro a; simp [digitsToNat]
  | cons c rest ih =>
    intro a
    have h1 : (c :: rest).foldl (fun x c => x * 10 + digitVal c) a =
        rest.foldl (fun x c => x * 10 + digitVal c) (a * 10 + digitVal c) := rfl
    have h2 : digitsToNat (c :: rest) =
        rest.foldl (fun x c => x * 10 + digitVal c) (digitVal c) := by
      simp [digitsToNat]
    rw [h1, ih (a * 10 + digitVal c), h2, ih (digitVal c)]
    simp only [List.length_cons]
    ring

theorem natToCharsGo_val :
    ∀ (fuel n : Nat) (acc : List Char),
      n ≤ fuel →
      digitsToNat (natToCharsGo fuel n acc) = n * 10 ^ acc.length + digitsToNat acc := by
  intro fuel
  induction fuel with
  | zero =>
    intro n acc h
    have : n = 0 := by omega
    subst this
    simp [natToCharsGo]
  | succ f ih =>
    intro n acc h
    by_cases hn : n = 0
    · subst hn
      simp [natToCharsGo]
    · rw [natToCharsGo, if_neg hn]
      have hle : n / 10 ≤ f := by omega
      rw [ih (n / 10) (digitChar (n % 10) :: acc) hle]
      have hdv : digitsToNat (digitChar (n % 10) :: acc) =
          n % 10 * 10 ^ acc.length + digitsToNat acc := by
        have h2 : digitsToNat (digitChar (n % 10) :: acc) =
            acc.foldl (fun x c => x * 10 + digitVal c) (digitVal (digitChar (n % 10))) := by
          simp [digitsToNat]
        rw [h2, digitsFold_shift acc, digitVal_digitChar (n % 10) (Nat.mod_lt n (by omega))]
      rw [hdv]
      have hd : 10 * (n / 10) + n % 10 = n := Nat.div_add_mod n 10
      calc n / 10 * 10 ^ (digitChar (n % 10) :: acc).length +
            (n % 10 * 10 ^ acc.length + digitsToNat acc)
          = (10 * (n / 10) + n % 10) * 10 ^ acc.length + digitsToNat acc := by
            simp only [List.length_cons]
            ring
        _ = n * 10 ^ acc.length + digitsToNat acc := by rw [hd]

theorem digitsToNat_natToChars (n : Nat) : digitsToNat (natToChars n) = n := by
  by_cases hn : n = 0
  · subst hn
    decide
  · rw [natToChars, if_neg hn, natToCharsGo_val (n + 1) n [] (by omega)]
    have h0 : digitsToNat ([] : List Char) = 0 := rfl
    rw [h0]
    norm_num

theorem natToChars_ne_nil (n : Nat) : natToChars n ≠ [] := by
  by_cases hn : n = 0
  · subst hn
    decide
  · rw [natToChars, if_neg hn, natToCharsGo, if_neg hn]
    exact natToCharsGo_ne_nil n (n / 10) _ (by simp)

theorem natToChars_all_digits (n : Nat) : ∀ c ∈ natToChars n, isDigitChar c = true := by
  by_cases hn : n = 0
  · subst hn
    intro c hc
    have hc0 : c = '0' := by simpa [natToChars] using hc
    rw [hc0]
    decide
  · rw [natToChars, if_neg hn]
    exact natToCharsGo_all_digits (n + 1) n [] (by simp)

theorem natToChars_all_digits_bool (n : Nat) : (natToChars n).all isDigitChar = true := by
  rw [List.all_eq_true]
  exact natToChars_all_digits n

theorem parseIntJS_natToChars (n : Nat) : parseIntJS (natToChars n) = some (n : Int) := by
  obtain ⟨c, cs, hcons⟩ : ∃ c cs, natToChars n = c :: cs := by
    cases h : natToChars n with
    | nil => exact absurd h (natToChars_ne_nil n)
    | cons c cs => exact ⟨c, cs, rfl⟩
  have hcd : isDigitChar c = true := natToChars_all_digits n c (by rw [hcons]; simp)
  obtain ⟨hsp, hmn, hpl⟩ := isDigitChar_ne c hcd
  unfold parseIntJS
  rw [hcons, List.dropWhile_cons]
  simp only [decide_eq_true_eq, if_neg hsp]
  rw [if_neg hmn, if_neg hpl]
  rw [parseIntFrom_all_digits false (c :: cs) (by simp)
    (by rw [← hcons]; exact natToChars_all_digits_bool n)]
  rw [if_neg (by simp : ¬(false = true)), ← hcons, digitsToNat_natToChars]

theorem parseIntJS_intToChars (i : Int) : parseIntJS (intToChars i) = some i := by
  by_cases hneg : i < 0
  · rw [intToChars, if_pos hneg]
    unfold parseIntJS
    rw [List.dropWhile_cons]
    simp only [decide_eq_true_eq, if_neg (by decide : ¬('-' = ' '))]
    rw [if_pos trivial]
    rw [parseIntFrom_all_digits true (natToChars i.natAbs) (natToChars_ne_nil _)
      (natToChars_all_digits_bool _)]
    rw [if_pos rfl, digitsToNat_natToChars]
    congr 1
    omega
  · rw [intToChars, if_neg hneg, parseIntJS_natToChars]
    congr 1
    omega

theorem colon_not_mem_natToChars (n : Nat) : ':' ∉ natToChars n := by
  intro hm
  have := natToChars_all_digits n ':' hm
  revert this
  decide

theorem colon_not_mem_intToChars (i : Int) : ':' ∉ intToChars i := by
  by_cases hneg : i < 0
  · rw [intToChars, if_pos hneg]
    intro hm
    rcases List.mem_cons.mp hm with h1 | h2
    · exact absurd h1 (by decide)
    · exact colon_not_mem_natToChars _ h2
  · rw [intToChars, if_neg hneg]
    exact colon_not_mem_natToChars _

theorem intToChars_ne_nil (i : Int) : intToChars i ≠ [] := by
  by_cases hneg : i < 0
  · rw [intToChars, if_pos hneg]
    simp
  · rw [intToChars, if_neg hneg]
    exact natToChars_ne_nil _

theorem char_toNat_lt (c : Char) : c.toNat < 1114112 := by
  have h := c.valid
  simp only [Char.toNat]
  rcases h with h | h
  · omega
  · omega

theorem isContByte_true (b : Nat) (h1 : 128 ≤ b) (h2 : b < 192) : isContByte b = true := by
  unfold isContByte
  simp only [Bool.and_eq_true, decide_eq_true_eq]
  exact ⟨h1, h2⟩

theorem utf8EncodeChar_lt_256 (c : Char) : ∀ b ∈ utf8EncodeChar c, b < 256 := by
  intro b hb
  have hc := char_toNat_lt c
  simp only [utf8EncodeChar] at hb
  split_ifs at hb with h1 h2 h3 <;>
    simp only [List.mem_cons, List.not_mem_nil, or_false] at hb
  · omega
  · rcases hb with hb | hb <;> omega
  · rcases hb with hb | hb | hb <;> omega
  · rcases hb with hb | hb | hb | hb <;> omega

theorem utf8Encode_lt_256 (s : List Char) : ∀ b ∈ utf8Encode s, b < 256 := by
  intro b hb
  rw [utf8Encode, List.mem_flatMap] at hb
  obtain ⟨c, _, hbc⟩ := hb
  exact utf8EncodeChar_lt_256 c b hbc

theorem utf8Decode_cons (b : Nat) (rest : List Nat) :
    utf8Decode (b :: rest) =
      if b < 128 then
        (utf8Decode rest).map (fun cs => Char.ofNat b :: cs)
      else if b < 192 then none
      else if b < 224 then
        match rest with
        | b2 :: rest2 =>
          if isContByte b2 then
            (utf8Decode rest2).map (fun cs => Char.ofNat ((b - 192) * 64 + (b2 - 128)) :: cs)
          else none
        | [] => none
      else if b < 240 then
        match rest with
        | b2 :: b3 :: rest3 =>
          if isContByte b2 && isContByte b3 then
            (utf8Decode rest3).map
              (fun cs => Char.ofNat ((b - 224) * 4096 + (b2 - 128) * 64 + (b3 - 128)) :: cs)
          else none
        | _ => none
      else
        match rest with
        | b2 :: b3 :: b4 :: rest4 =>
          if isContByte b2 && isContByte b3 && isContByte b4 then
            (utf8Decode rest4).map
              (fun cs =>
                Char.ofNat ((b - 240) * 262144 + (b2 - 128) * 4096 + (b3 - 128) * 64 +
                  (b4 - 128)) :: cs)
          else none
        | _ => none := by
  cases rest with
  | nil => rfl
  | cons b2 r2 =>
    cases r2 with
    | nil => rfl
    | cons b3 r3 =>
      cases r3 with
      | nil => rfl
      | cons b4 r4 => rfl

theorem utf8Decode_encodeChar_append (c : Char) (bs : List Nat) :
    utf8Decode (utf8EncodeChar c ++ bs) = (utf8Decode bs).map (fun cs => c :: cs) := by
  have hofn : Char.ofNat c.toNat = c := Char.ofNat_toNat c
  have hc := char_toNat_lt c
  simp only [utf8EncodeChar]
  by_cases h1 : c.toNat < 128
  · rw [if_pos h1]
    simp only [List.cons_append, List.nil_append]
    rw [utf8Decode_cons, if_pos h1]
    simp only [hofn]
  · by_cases h2 : c.toNat < 2048
    · rw [if_pos h2, if_neg h1]
      simp only [List.cons_append, List.nil_append]
      rw [utf8Decode_cons]
      rw [if_neg (by omega : ¬192 + c.toNat / 64 < 128),
        if_neg (by omega : ¬192 + c.toNat / 64 < 192),
        if_pos (by omega : 192 + c.toNat / 64 < 224)]
      dsimp only
      rw [isContByte_true _ (by omega) (by omega)]
      rw [if_pos rfl]
      have hv : (192 + c.toNat / 64 - 192) * 64 + (128 + c.toNat % 64 - 128) = c.toNat := by
        omega
      simp only [hv, hofn]
    · by_cases h3 : c.toNat < 65536
      · rw [if_pos h3, if_neg h2, if_neg h1]
        simp only [List.cons_append, List.nil_append]
        rw [utf8Decode_cons]
        rw [if_neg (by omega : ¬224 + c.toNat / 4096 < 128),
          if_neg (by omega : ¬224 + c.toNat / 4096 < 192),
          if_neg (by omega : ¬224 + c.toNat / 4096 < 224),
          if_pos (by omega : 224 + c.toNat / 4096 < 240)]
        dsimp only
        rw [isContByte_true _ (by omega) (by omega), isContByte_true _ (by omega) (by omega)]
        rw [if_pos (by decide : (true && true) = true)]
        have hv : (224 + c.toNat / 4096 - 224) * 4096 + (128 + c.toNat / 64 % 64 - 128) * 64 +
            (128 + c.toNat % 64 - 128) = c.toNat := by omega
        simp only [hv, hofn]
      · rw [if_neg h3, if_neg h2, if_neg h1]
        simp only [List.cons_append, List.nil_append]
        rw [utf8Decode_cons]
        rw [if_neg (by omega : ¬240 + c.toNat / 262144 < 128),
          if_neg (by omega : ¬240 + c.toNat / 262144 < 192),
          if_neg (by omega : ¬240 + c.toNat / 262144 < 224),
          if_neg (by omega : ¬240 + c.toNat / 262144 < 240)]
        dsimp only
        rw [isContByte_true _ (by omega) (by omega), isContByte_true _ (by omega) (by omega),
          isContByte_true _ (by omega) (by omega)]
        rw [if_pos (by decide : (true && true && true) = true)]
        have hv : (240 + c.toNat / 262144 - 240) * 262144 +
            (128 + c.toNat / 4096 % 64 - 128) * 4096 +
            (128 + c.toNat / 64 % 64 - 128) * 64 + (128 + c.toNat % 64 - 128) = c.toNat := by
          omega
        simp only [hv, hofn]

theorem utf8Decode_utf8Encode (s : List Char) : utf8Decode (utf8Encode s) = some s := by
  induction s with
  | nil => rfl
  | cons c rest ih =>
    have h1 : utf8Encode (c :: rest) = utf8EncodeChar c ++ utf8Encode rest := by
      simp [utf8Encode]
    rw [h1, utf8Decode_encodeChar_append, ih]
    rfl

theorem sextetVal_sextetChar_fin : ∀ n : Fin 64, sextetVal (sextetChar n.val) = some n.val := by
  decide

theorem sextetVal_sextetChar (n : Nat) (h : n < 64) : sextetVal (sextetChar n) = some n :=
  sextetVal_sextetChar_fin ⟨n, h⟩

theorem sextetChar_ne_pad_fin : ∀ n : Fin 64, sextetChar n.val ≠ '=' := by decide

theorem sextetChar_ne_pad (n : Nat) (h : n < 64) : sextetChar n ≠ '=' :=
  sextetChar_ne_pad_fin ⟨n, h⟩

theorem b64DecodeBytes_four (c1 c2 c3 c4 : Char) (rest : List Char) :
    b64DecodeBytes (c1 :: c2 :: c3 :: c4 :: rest) =
      (match sextetVal c1, sextetVal c2 with
      | some v1, some v2 =>
        if c3 = '=' then
          if c4 = '=' ∧ rest = [] then some [v1 * 4 + v2 / 16] else none
        else
          match sextetVal c3 with
          | some v3 =>
            if c4 = '=' then
              if rest = [] then some [v1 * 4 + v2 / 16, v2 % 16 * 16 + v3 / 4] else none
            else
              match sextetVal c4, b64DecodeBytes rest with
              | some v4, some tail =>
                some ((v1 * 4 + v2 / 16) :: (v2 % 16 * 16 + v3 / 4) :: (v3 % 4 * 64 + v4) :: tail)
              | _, _ => none
          | none => none
      | _, _ => none) := rfl

theorem b64_roundtrip : ∀ bs : List Nat, (∀ b ∈ bs, b < 256) →
    b64DecodeBytes (b64EncodeBytes bs) = some bs
  | [], _ => rfl
  | [b1], h => by
    have hb1 : b1 < 256 := h b1 (by simp)
    show b64DecodeBytes
      (sextetChar (b1 / 4) :: sextetChar (b1 % 4 * 16) :: '=' :: '=' :: []) = some [b1]
    rw [b64DecodeBytes_four, sextetVal_sextetChar _ (by omega), sextetVal_sextetChar _ (by omega)]
    dsimp only
    rw [if_pos rfl, if_pos ⟨rfl, rfl⟩]
    have hv : b1 / 4 * 4 + b1 % 4 * 16 / 16 = b1 := by omega
    rw [hv]
  | [b1, b2], h => by
    have hb1 : b1 < 256 := h b1 (by simp)
    have hb2 : b2 < 256 := h b2 (by simp)
    show b64DecodeBytes (sextetChar (b1 / 4) :: sextetChar (b1 % 4 * 16 + b2 / 16) ::
      sextetChar (b2 % 16 * 4) :: '=' :: []) = some [b1, b2]
    rw [b64DecodeBytes_four, sextetVal_sextetChar _ (by omega), sextetVal_sextetChar _ (by omega)]
    dsimp only
    rw [if_neg (sextetChar_ne_pad _ (by omega))]
    rw [sextetVal_sextetChar _ (by omega)]
    dsimp only
    rw [if_pos rfl, if_pos rfl]
    have hv1 : b1 / 4 * 4 + (b1 % 4 * 16 + b2 / 16) / 16 = b1 := by omega
    have hv2 : (b1 % 4 * 16 + b2 / 16) % 16 * 16 + b2 % 16 * 4 / 4 = b2 := by omega
    rw [hv1, hv2]
  | b1 :: b2 :: b3 :: rest, h => by
    have hb1 : b1 < 256 := h b1 (by simp)
    have hb2 : b2 < 256 := h b2 (by simp)
    have hb3 : b3 < 256 := h b3 (by simp)
    have hrest : ∀ b ∈ rest, b < 256 := fun b hb => h b (by simp [hb])
    show b64DecodeBytes (sextetChar (b1 / 4) :: sextetChar (b1 % 4 * 16 + b2 / 16) ::
      sextetChar (b2 % 16 * 4 + b3 / 64) :: sextetChar (b3 % 64) :: b64EncodeBytes rest) =
      some (b1 :: b2 :: b3 :: rest)
    rw [b64DecodeBytes_four, sextetVal_sextetChar _ (by omega), sextetVal_sextetChar _ (by omega)]
    dsimp only
    rw [if_neg (sextetChar_ne_pad _ (by omega))]
    rw [sextetVal_sextetChar _ (by omega)]
    dsimp only
    rw [if_neg (sextetChar_ne_pad _ (by omega))]
    rw [sextetVal_sextetChar _ (by omega), b64_roundtrip rest hrest]
    dsimp only
    have hv1 : b1 / 4 * 4 + (b1 % 4 * 16 + b2 / 16) / 16 = b1 := by omega
    have hv2 : (b1 % 4 * 16 + b2 / 16) % 16 * 16 + (b2 % 16 * 4 + b3 / 64) / 4 = b2 := by omega
    have hv3 : (b2 % 16 * 4 + b3 / 64) % 4 * 64 + b3 % 64 = b3 := by omega
    rw [hv1, hv2, hv3]

/-- C3 (amended): the cursor round-trip holds for every pair whose id is
non-empty and contains no `':'` separator: decoding the encoded cursor
returns exactly the original `(timestamp, id)` pair, for every integer
timestamp. (Ids containing `':'` break the round trip — see the
counterexample.) -/
theorem C3_cursor_roundtrip (id : List Char) (ts now : Int)
    (hne : id ≠ []) (hcolon : ':' ∉ id) :
    decodeCursor now (encodeCursorRaw id ts) = ⟨ts, id⟩ := by
  unfold decodeCursor encodeCursorRaw
  rw [b64_roundtrip _ (utf8Encode_lt_256 _)]
  dsimp only
  rw [utf8Decode_utf8Encode]
  dsimp only
  rw [splitOnChar_append ':' id (intToChars ts) hcolon,
    splitOnChar_no_sep ':' (intToChars ts) (colon_not_mem_intToChars ts)]
  simp only [List.getD_cons_zero, List.getD_cons_succ, List.length_cons, List.length_nil]
  rw [if_neg ?hcond]
  case hcond =>
    push_neg
    exact ⟨hne, by omega, intToChars_ne_nil ts⟩
  rw [parseIntJS_intToChars]

/-- Witness for C3 at id `"ab"`, timestamp 1709123456789 and `now = 0`. -/
theorem C3_cursor_roundtrip_witness :
    decodeCursor 0 (encodeCursorRaw ("ab".toList) 1709123456789) =
      ⟨1709123456789, "ab".toList⟩ :=
  C3_cursor_roundtrip ("ab".toList) 1709123456789 0 (by decide) (by decide)

/-- Counterexample to C3 as stated: for the id `"x:1"` (an opaque string
containing `':'`) and timestamp 2, decoding the encoded cursor yields
`(1, "x")`, not the original pair — the colon-separated format is ambiguous. -/
theorem C3_counterexample_colon_id :
    decodeCursor 0 (encodeCursorRaw ("x:1".toList) 2) = ⟨1, "x".toList⟩ ∧
      decodeCursor 0 (encodeCursorRaw ("x:1".toList) 2) ≠ ⟨2, "x:1".toList⟩ := by decide
